import Mathlib

/-!
Verification development for the GOFSM engine (src/gofsm.c, src/gofsm.h).

The C code is shallowly embedded: transition objects live behind pointers in C,
so here a heap `store : TransId → Transition` maps pointer identities to
transition records, and the engine state `GOFSM_t` carries that heap plus the
registry (a list of transition identities, the first `transitions_count`
slots of the C array), the cached transition pointer, the current/target node
indices and the three invalidation flags.  Action callbacks are external
side-effecting C functions; their outcome on a given tick is modelled by an
oracle `env : TransId → Bool` passed to `GOFSM_OnTick` (`true` = Success).
Node indices are `uint8_t` in C; they are modelled as `Nat` (only equality
comparisons and copies are performed on them, so no overflow arises).
-/

namespace GOFSM

abbrev NodeIndex := Nat
abbrev TransId := Nat

inductive TransitionState where
  | Blocked
  | Available
deriving DecidableEq, Repr

inductive GOFSM_Error where
  | No
  | OwerstackTransitions
  | NotRegisteredTransition
deriving DecidableEq, Repr

/-- `GOFSM_Transition_t` (gofsm.h lines 40-45).  The C `function` field is a
possibly-NULL function pointer; only its presence is part of the record, its
behaviour is the tick oracle's business. -/
structure Transition where
  source_node_index : NodeIndex
  destination_node_index : NodeIndex
  has_function : Bool
  state : TransitionState
deriving DecidableEq, Repr

/-- `GOFSM_t` (gofsm.h lines 47-60), together with the heap of transition
objects the engine's pointers refer to.  `transitions` models the first
`transitions_count` entries of the C pointer array; `is_dyn` and the unused
capacity slots play no role in any operation modelled here. -/
structure GOFSM_t where
  store : TransId → Transition
  nodes_capacity : Nat
  transitions_capacity : Nat
  transitions : List TransId
  transition_current : Option TransId
  current_node_index : NodeIndex
  target_node_index : NodeIndex
  is_target_change : Bool
  is_transition_failure : Bool
  is_graph_reconfigured : Bool

/-- `GOFSM_InitStatic` (gofsm.c lines 74-86): zeroes the registry and the
cache, sets the goal-changed and topology-changed flags, clears the failure
flag.  The target node is left as found (the C function does not assign it). -/
def GOFSM_InitStatic (g : GOFSM_t) : GOFSM_t :=
  { g with
    current_node_index := 0
    transitions := []
    transition_current := none
    is_target_change := true
    is_transition_failure := false
    is_graph_reconfigured := true }

/-- `GOFSM_Transition_SetState` (gofsm.c lines 96-100): updates the pointed-to
transition object in place and marks the topology changed. -/
def GOFSM_Transition_SetState (g : GOFSM_t) (t : TransId) (s : TransitionState) : GOFSM_t :=
  { g with
    store := fun i => if i = t then { g.store t with state := s } else g.store i
    is_graph_reconfigured := true }

/-- `GOFSM_AddTransition` (gofsm.c lines 102-112). -/
def GOFSM_AddTransition (g : GOFSM_t) (t : TransId) : GOFSM_t × GOFSM_Error :=
  if g.transitions.length = g.transitions_capacity then
    (g, GOFSM_Error.OwerstackTransitions)
  else
    ({ g with
        transitions := g.transitions ++ [t]
        is_graph_reconfigured := true }, GOFSM_Error.No)

/-- `GOFSM_RemoveTransition` (gofsm.c lines 113-124): removes the first
occurrence of the pointer from the registry (the `memmove` shifts the rest
down, preserving order).  Note that, unlike add and setState, the C function
does not touch `is_graph_reconfigured`. -/
def GOFSM_RemoveTransition (g : GOFSM_t) (t : TransId) : GOFSM_t × GOFSM_Error :=
  if t ∈ g.transitions then
    ({ g with transitions := g.transitions.erase t }, GOFSM_Error.No)
  else
    (g, GOFSM_Error.NotRegisteredTransition)

/-- `GOFSM_SetCurrent` (gofsm.c lines 126-130). -/
def GOFSM_SetCurrent (g : GOFSM_t) (n : NodeIndex) : GOFSM_t :=
  { g with current_node_index := n, is_target_change := true }

/-- `GOFSM_SetTarget` (gofsm.c lines 131-135). -/
def GOFSM_SetTarget (g : GOFSM_t) (n : NodeIndex) : GOFSM_t :=
  { g with target_node_index := n, is_target_change := true }

/-! ## The search engine

`GOFSM_SearchNextStep` (gofsm.c lines 3-56) is a backward layered search from
the target.  The single scratch array `alg_nodes_buffer` is written
append-only: position 0 receives the target, and each later write lands at
position `visited_length`, which always equals the number of cells written so
far.  The buffer contents are therefore modelled as a growing list `vis`; the
cursor `index_planned` (start of the current working slice) is `ws`, and the
working slice of a layer is `vis.drop ws`, exactly the cells appended by the
previous layer.  The outer `while(planned_length)` loop is given explicit
fuel `transitions_count + 2`; one layer consumes one unit of fuel and, except
for the last two iterations, appends at least one fresh source node, of which
there are at most `transitions_count`, so this fuel is never exhausted. -/

/-- The inner transition scan of gofsm.c lines 27-52 for one frontier node
`node`: walk the registry in order; on a matching enabled transition whose
source is `cur`, return it at once; otherwise append unvisited sources. -/
def searchScanNode (store : TransId → Transition) (cur node : NodeIndex) :
    List TransId → List NodeIndex → Option TransId × List NodeIndex
  | [], vis => (none, vis)
  | t :: rest, vis =>
    if (store t).destination_node_index = node then
      if (store t).state = TransitionState.Available then
        if (store t).source_node_index = cur then
          (some t, vis)
        else if (store t).source_node_index ∈ vis then
          searchScanNode store cur node rest vis
        else
          searchScanNode store cur node rest (vis ++ [(store t).source_node_index])
      else
        searchScanNode store cur node rest vis
    else
      searchScanNode store cur node rest vis

/-- The loop over the working slice, gofsm.c lines 23-53. -/
def searchScanLayer (store : TransId → Transition) (cur : NodeIndex) (ts : List TransId) :
    List NodeIndex → List NodeIndex → Option TransId × List NodeIndex
  | [], vis => (none, vis)
  | node :: restWork, vis =>
    match searchScanNode store cur node ts vis with
    | (some t, vis2) => (some t, vis2)
    | (none, vis2) => searchScanLayer store cur ts restWork vis2

/-- The outer layer loop, gofsm.c lines 12-54. -/
def searchLoop (store : TransId → Transition) (cur : NodeIndex) (ts : List TransId) :
    Nat → List NodeIndex → Nat → Option TransId × List NodeIndex
  | 0, vis, _ => (none, vis)
  | fuel + 1, vis, ws =>
    let work := vis.drop ws
    if work.isEmpty then
      (none, vis)
    else
      match searchScanLayer store cur ts work vis with
      | (some t, vis2) => (some t, vis2)
      | (none, vis2) => searchLoop store cur ts fuel vis2 vis.length

/-- `GOFSM_SearchNextStep` together with the final scratch-buffer contents
(second component): the buffer starts as `[target]` (gofsm.c line 10) and the
first working slice is that whole buffer. -/
def GOFSM_SearchNextStepFull (g : GOFSM_t) : Option TransId × List NodeIndex :=
  searchLoop g.store g.current_node_index g.transitions
    (g.transitions.length + 2) [g.target_node_index] 0

/-- `GOFSM_SearchNextStep` (gofsm.c lines 3-56). -/
def GOFSM_SearchNextStep (g : GOFSM_t) : Option TransId :=
  (GOFSM_SearchNextStepFull g).1

/-! ## The tick controller -/

/-- Lines 142-147 of `GOFSM_OnTick`: the retry/replan decision.  Replan unless
the last attempt failed and neither the goal nor the topology changed. -/
def GOFSM_OnTick_plan (g : GOFSM_t) : GOFSM_t :=
  if (!g.is_transition_failure || g.is_target_change || g.is_graph_reconfigured) then
    { g with
        transition_current := GOFSM_SearchNextStep g
        is_target_change := false
        is_graph_reconfigured := false }
  else
    g

/-- Lines 148-162 of `GOFSM_OnTick`: execute the cached transition.  A NULL
cache clears the failure flag and returns; an absent action counts as
Success; Success advances the current node to the destination. -/
def GOFSM_OnTick_exec (env : TransId → Bool) (g : GOFSM_t) : GOFSM_t :=
  match g.transition_current with
  | none => { g with is_transition_failure := false }
  | some t =>
    let result := if (g.store t).has_function then env t else true
    if result then
      { g with
          is_transition_failure := false
          current_node_index := (g.store t).destination_node_index }
    else
      { g with is_transition_failure := true }

/-- `GOFSM_OnTick` (gofsm.c lines 137-163). -/
def GOFSM_OnTick (env : TransId → Bool) (g : GOFSM_t) : GOFSM_t :=
  if g.current_node_index = g.target_node_index then g
  else GOFSM_OnTick_exec env (GOFSM_OnTick_plan g)

/-! ## Public operations, for "any sequence of operations" invariants -/

inductive Op where
  | addTr (t : TransId)
  | removeTr (t : TransId)
  | setStateTr (t : TransId) (s : TransitionState)
  | setCur (n : NodeIndex)
  | setTgt (n : NodeIndex)
  | tick (env : TransId → Bool)

def applyOp : Op → GOFSM_t → GOFSM_t
  | Op.addTr t, g => (GOFSM_AddTransition g t).1
  | Op.removeTr t, g => (GOFSM_RemoveTransition g t).1
  | Op.setStateTr t s, g => GOFSM_Transition_SetState g t s
  | Op.setCur n, g => GOFSM_SetCurrent g n
  | Op.setTgt n, g => GOFSM_SetTarget g n
  | Op.tick env, g => GOFSM_OnTick env g

def runOps (ops : List Op) (g : GOFSM_t) : GOFSM_t :=
  ops.foldl (fun g op => applyOp op g) g

/-- The implicit invariant of C10: a set failure flag implies a non-NULL
cached transition. -/
def FailureCacheInv (g : GOFSM_t) : Prop :=
  g.is_transition_failure = true → g.transition_current ≠ none

/-! ## Specification-side notions for the search engine -/

/-- The condition under which gofsm.c line 34-35 returns transition `t` while
scanning the in-edges of frontier node `node`: checked in the code's order
(destination, then enabled state, then source equal to the current node). -/
def rmatch (store : TransId → Transition) (cur node : NodeIndex) (t : TransId) : Bool :=
  ((store t).destination_node_index == node) &&
  ((store t).state == TransitionState.Available) &&
  ((store t).source_node_index == cur)

/-- `reachIn store ts n a b`: there is a path of exactly `n` registered,
Available transitions from node `a` to node `b`.  Blocked transitions
contribute nothing here, matching the search's visibility rule. -/
def reachIn (store : TransId → Transition) (ts : List TransId) :
    Nat → NodeIndex → NodeIndex → Bool
  | 0, a, b => a == b
  | n + 1, a, b =>
    ts.any fun t =>
      ((store t).state == TransitionState.Available) &&
      ((store t).source_node_index == a) &&
      reachIn store ts n (store t).destination_node_index b

/-- `a` is at shortest-path distance exactly `k` from `b` over the enabled
registered transitions. -/
def distMin (store : TransId → Transition) (ts : List TransId)
    (k : Nat) (a b : NodeIndex) : Prop :=
  reachIn store ts k a b = true ∧ ∀ j, reachIn store ts j a b = true → k ≤ j

/-- The layer invariant of the backward search at the start of a loop
iteration: `vis` is the scratch buffer, `ws` the cursor to the current
working slice, `k` the layer number.  The buffer holds exactly the nodes at
distance ≤ k from the target (the current node excepted, since finding it
returns instead of marking it), the working slice holds exactly those at
distance exactly `k`, and the current node is farther than `k`. -/
structure SearchInv (store : TransId → Transition) (ts : List TransId)
    (cur tgt : NodeIndex) (vis : List NodeIndex) (ws k : Nat) : Prop where
  nodup : vis.Nodup
  mem_iff : ∀ x, x ∈ vis ↔ (x ≠ cur ∧ ∃ j ≤ k, reachIn store ts j x tgt = true)
  work_iff : ∀ x, x ∈ vis.drop ws ↔ (x ≠ cur ∧ distMin store ts k x tgt)
  cur_far : ∀ j ≤ k, reachIn store ts j cur tgt = false
  ws_le : ws ≤ vis.length

/-! ## Concrete example engines used to instantiate the theorems -/

/-- Registration-order scenario of spec §8 for the tie-break claim: edges
0:(1→3), 1:(2→3), then X = 2:(0→2) registered before Y = 3:(0→1), all
Available; current=0, target=3. -/
def exStoreTie : TransId → Transition := fun i =>
  if i = 0 then ⟨1, 3, false, TransitionState.Available⟩
  else if i = 1 then ⟨2, 3, false, TransitionState.Available⟩
  else if i = 2 then ⟨0, 2, false, TransitionState.Available⟩
  else if i = 3 then ⟨0, 1, false, TransitionState.Available⟩
  else ⟨0, 0, false, TransitionState.Blocked⟩

def exEngineTie : GOFSM_t where
  store := exStoreTie
  nodes_capacity := 4
  transitions_capacity := 8
  transitions := [0, 1, 2, 3]
  transition_current := none
  current_node_index := 0
  target_node_index := 3
  is_target_change := true
  is_transition_failure := false
  is_graph_reconfigured := true

/-- Two parallel enabled edges 0→1 registered as transitions 0 then 1. -/
def exStoreDup : TransId → Transition := fun i =>
  if i = 0 then ⟨0, 1, false, TransitionState.Available⟩
  else if i = 1 then ⟨0, 1, false, TransitionState.Available⟩
  else ⟨0, 0, false, TransitionState.Blocked⟩

def exEngineDup : GOFSM_t where
  store := exStoreDup
  nodes_capacity := 2
  transitions_capacity := 4
  transitions := [0, 1]
  transition_current := none
  current_node_index := 0
  target_node_index := 1
  is_target_change := true
  is_transition_failure := false
  is_graph_reconfigured := true

/-! ## Concrete engines for the tick-controller claims -/

/-- Heap with transition 0 = (0 → 1, Available, no action) and
transition 1 = (1 → 2, Blocked, no action). -/
def exStoreBlocked : TransId → Transition := fun i =>
  if i = 0 then ⟨0, 1, false, TransitionState.Available⟩
  else if i = 1 then ⟨1, 2, false, TransitionState.Blocked⟩
  else ⟨0, 0, false, TransitionState.Blocked⟩

/-- Heap with transition 0 = (0 → 1, Available) and transition 1 = (1 → 2,
Available), both without an action. -/
def exStoreChain : TransId → Transition := fun i =>
  if i = 0 then ⟨0, 1, false, TransitionState.Available⟩
  else if i = 1 then ⟨1, 2, false, TransitionState.Available⟩
  else ⟨0, 0, false, TransitionState.Blocked⟩

/-- Heap with a single transition 0 = (0 → 1, Available) that has an action. -/
def exStoreAct : TransId → Transition := fun i =>
  if i = 0 then ⟨0, 1, true, TransitionState.Available⟩
  else ⟨0, 0, false, TransitionState.Blocked⟩

/-- An action oracle on which every invoked action fails. -/
def exEnvFail : TransId → Bool := fun _ => false

/-- Spec §8 scenario: current=1, target=2, edge 1→2 blocked: no path. -/
def exEngineNoPath : GOFSM_t where
  store := exStoreBlocked
  nodes_capacity := 3
  transitions_capacity := 4
  transitions := [0, 1]
  transition_current := none
  current_node_index := 1
  target_node_index := 2
  is_target_change := true
  is_transition_failure := false
  is_graph_reconfigured := false

/-- An idle engine: current node equals target node. -/
def exEngineIdle : GOFSM_t where
  store := exStoreChain
  nodes_capacity := 3
  transitions_capacity := 4
  transitions := [0, 1]
  transition_current := none
  current_node_index := 2
  target_node_index := 2
  is_target_change := false
  is_transition_failure := false
  is_graph_reconfigured := false

/-- One registered transition, topology-changed flag clear: the input on which
`GOFSM_RemoveTransition`'s missing flag update is observable. -/
def exEngineRemove : GOFSM_t where
  store := exStoreChain
  nodes_capacity := 3
  transitions_capacity := 4
  transitions := [0]
  transition_current := none
  current_node_index := 0
  target_node_index := 1
  is_target_change := false
  is_transition_failure := false
  is_graph_reconfigured := false

/-- A registry filled to capacity. -/
def exEngineFull : GOFSM_t where
  store := exStoreChain
  nodes_capacity := 3
  transitions_capacity := 2
  transitions := [0, 1]
  transition_current := none
  current_node_index := 0
  target_node_index := 2
  is_target_change := true
  is_transition_failure := false
  is_graph_reconfigured := false

/-- Chain scenario of spec §8: nodes {0,1,2}, edges 0→1 and 1→2 enabled,
current=0, target=2. -/
def exEngineChain : GOFSM_t where
  store := exStoreChain
  nodes_capacity := 3
  transitions_capacity := 4
  transitions := [0, 1]
  transition_current := none
  current_node_index := 0
  target_node_index := 2
  is_target_change := true
  is_transition_failure := false
  is_graph_reconfigured := true

/-- Retry scenario: a failed attempt on cached transition 0 (which has an
action), no goal or topology change since. -/
def exEngineRetry : GOFSM_t where
  store := exStoreAct
  nodes_capacity := 2
  transitions_capacity := 4
  transitions := [0]
  transition_current := some 0
  current_node_index := 0
  target_node_index := 1
  is_target_change := false
  is_transition_failure := true
  is_graph_reconfigured := false

/-! ## Frame lemmas for the tick controller -/

lemma GOFSM_OnTick_plan_frame (g : GOFSM_t) :
    (GOFSM_OnTick_plan g).store = g.store ∧
    (GOFSM_OnTick_plan g).transitions = g.transitions ∧
    (GOFSM_OnTick_plan g).transitions_capacity = g.transitions_capacity ∧
    (GOFSM_OnTick_plan g).nodes_capacity = g.nodes_capacity ∧
    (GOFSM_OnTick_plan g).current_node_index = g.current_node_index ∧
    (GOFSM_OnTick_plan g).target_node_index = g.target_node_index ∧
    (GOFSM_OnTick_plan g).is_transition_failure = g.is_transition_failure := by
  unfold GOFSM_OnTick_plan
  split <;> exact ⟨rfl, rfl, rfl, rfl, rfl, rfl, rfl⟩

lemma GOFSM_OnTick_exec_frame (env : TransId → Bool) (g : GOFSM_t) :
    (GOFSM_OnTick_exec env g).store = g.store ∧
    (GOFSM_OnTick_exec env g).transitions = g.transitions ∧
    (GOFSM_OnTick_exec env g).transitions_capacity = g.transitions_capacity ∧
    (GOFSM_OnTick_exec env g).nodes_capacity = g.nodes_capacity ∧
    (GOFSM_OnTick_exec env g).target_node_index = g.target_node_index ∧
    (GOFSM_OnTick_exec env g).transition_current = g.transition_current ∧
    (GOFSM_OnTick_exec env g).is_target_change = g.is_target_change ∧
    (GOFSM_OnTick_exec env g).is_graph_reconfigured = g.is_graph_reconfigured := by
  unfold GOFSM_OnTick_exec
  rcases g.transition_current with _ | t
  · exact ⟨rfl, rfl, rfl, rfl, rfl, rfl, rfl, rfl⟩
  · dsimp only
    split <;> (try split) <;> exact ⟨rfl, rfl, rfl, rfl, rfl, rfl, rfl, rfl⟩

lemma GOFSM_OnTick_transitions (env : TransId → Bool) (g : GOFSM_t) :
    (GOFSM_OnTick env g).transitions = g.transitions ∧
    (GOFSM_OnTick env g).transitions_capacity = g.transitions_capacity := by
  unfold GOFSM_OnTick
  split
  · exact ⟨rfl, rfl⟩
  · refine ⟨?_, ?_⟩
    · rw [(GOFSM_OnTick_exec_frame env _).2.1, (GOFSM_OnTick_plan_frame g).2.1]
    · rw [(GOFSM_OnTick_exec_frame env _).2.2.1, (GOFSM_OnTick_plan_frame g).2.2.1]

/-! ## Registry and capacity lemmas -/

lemma applyOp_count_le (op : Op) (g : GOFSM_t)
    (h : g.transitions.length ≤ g.transitions_capacity) :
    (applyOp op g).transitions.length ≤ (applyOp op g).transitions_capacity := by
  cases op with
  | addTr t =>
    simp only [applyOp, GOFSM_AddTransition]
    split
    · exact h
    · next hne => simp only [List.length_append, List.length_cons, List.length_nil]; omega
  | removeTr t =>
    simp only [applyOp, GOFSM_RemoveTransition]
    split
    · exact le_trans (List.Sublist.length_le (List.erase_sublist t g.transitions)) h
    · exact h
  | setStateTr t s => exact h
  | setCur n => exact h
  | setTgt n => exact h
  | tick env =>
    simp only [applyOp]
    rw [(GOFSM_OnTick_transitions env g).1, (GOFSM_OnTick_transitions env g).2]
    exact h

/-- C8: `GOFSM_AddTransition` fails with `GOFSM_Error_OwerstackTransitions`
exactly when the registered-transition count equals the configured capacity
(leaving the state untouched), appends otherwise, and the count never exceeds
the capacity across any sequence of public operations. -/
theorem addTransition_capacity_exact :
    (∀ (g : GOFSM_t) (t : TransId), g.transitions.length = g.transitions_capacity →
      GOFSM_AddTransition g t = (g, GOFSM_Error.OwerstackTransitions)) ∧
    (∀ (g : GOFSM_t) (t : TransId), g.transitions.length ≠ g.transitions_capacity →
      GOFSM_AddTransition g t =
        ({ g with
            transitions := g.transitions ++ [t]
            is_graph_reconfigured := true }, GOFSM_Error.No)) ∧
    (∀ (ops : List Op) (g : GOFSM_t), g.transitions.length ≤ g.transitions_capacity →
      (runOps ops g).transitions.length ≤ (runOps ops g).transitions_capacity) := by
  refine ⟨?_, ?_, ?_⟩
  · intro g t h
    unfold GOFSM_AddTransition
    rw [if_pos h]
  · intro g t h
    unfold GOFSM_AddTransition
    rw [if_neg h]
  · intro ops
    induction ops with
    | nil => exact fun g h => h
    | cons op rest ih => exact fun g h => ih _ (applyOp_count_le op g h)

/-- Witness for C8 at a registry filled to capacity. -/
theorem addTransition_capacity_exact_witness :
    exEngineFull.transitions.length = exEngineFull.transitions_capacity ∧
    GOFSM_AddTransition exEngineFull 7 = (exEngineFull, GOFSM_Error.OwerstackTransitions) :=
  ⟨rfl, addTransition_capacity_exact.1 exEngineFull 7 rfl⟩

/-- C1: `GOFSM_Transition_SetState` and a successful `GOFSM_AddTransition` do
set the topology-changed flag, but a successful `GOFSM_RemoveTransition` does
not: on a concrete engine with the flag clear and transition 0 registered, the
removal succeeds (`GOFSM_Error_No`) and the flag stays `false`, so the next
tick with a failed cached attempt would not replan.  The claim (and the
spec's registry contract) is violated by `GOFSM_RemoveTransition`. -/
theorem registry_mutation_reconfigured :
    (∀ (g : GOFSM_t) (t : TransId) (s : TransitionState),
      (GOFSM_Transition_SetState g t s).is_graph_reconfigured = true) ∧
    (∀ (g : GOFSM_t) (t : TransId), g.transitions.length ≠ g.transitions_capacity →
      (GOFSM_AddTransition g t).1.is_graph_reconfigured = true ∧
      (GOFSM_AddTransition g t).2 = GOFSM_Error.No) ∧
    ((GOFSM_RemoveTransition exEngineRemove 0).2 = GOFSM_Error.No ∧
      (GOFSM_RemoveTransition exEngineRemove 0).1.is_graph_reconfigured = false) := by
  refine ⟨fun g t s => rfl, ?_, by decide, by decide⟩
  intro g t h
  unfold GOFSM_AddTransition
  rw [if_neg h]
  exact ⟨rfl, rfl⟩

/-- Witness for C1 discharging the successful-add hypothesis concretely. -/
theorem registry_mutation_reconfigured_witness :
    exEngineRemove.transitions.length ≠ exEngineRemove.transitions_capacity ∧
    ((GOFSM_AddTransition exEngineRemove 5).1.is_graph_reconfigured = true ∧
      (GOFSM_AddTransition exEngineRemove 5).2 = GOFSM_Error.No) :=
  ⟨by decide, registry_mutation_reconfigured.2.1 exEngineRemove 5 (by decide)⟩

/-- C2: on the spec's own no-path scenario (current=1, target=2, the only
edge into the target Blocked), `GOFSM_OnTick` finds no transition, leaves the
current node unchanged and clears the failure flag — but it surfaces nothing:
the function returns `void`, `GOFSM_Error_t` has no `NoPathFound` member, and
in release builds the `GOFSM_ASSERT` is a no-op.  The recoverable-report part
of the claim has no counterpart in the code. -/
theorem onTick_no_path_eval :
    GOFSM_SearchNextStep exEngineNoPath = none ∧
    GOFSM_OnTick exEnvFail exEngineNoPath =
      { exEngineNoPath with
          is_target_change := false
          is_graph_reconfigured := false
          is_transition_failure := false } ∧
    (GOFSM_OnTick exEnvFail exEngineNoPath).current_node_index = 1 ∧
    (GOFSM_OnTick exEnvFail exEngineNoPath).transition_current = none :=
  ⟨rfl, rfl, rfl, rfl⟩

/-! ## Execution-stage lemmas -/

lemma GOFSM_OnTick_exec_none (env : TransId → Bool) (g : GOFSM_t)
    (hc : g.transition_current = none) :
    GOFSM_OnTick_exec env g = { g with is_transition_failure := false } := by
  unfold GOFSM_OnTick_exec
  rw [hc]

lemma GOFSM_OnTick_exec_success (env : TransId → Bool) (g : GOFSM_t) (t : TransId)
    (hc : g.transition_current = some t)
    (hres : (if (g.store t).has_function then env t else true) = true) :
    GOFSM_OnTick_exec env g =
      { g with
          is_transition_failure := false
          current_node_index := (g.store t).destination_node_index } := by
  unfold GOFSM_OnTick_exec
  rw [hc]
  dsimp only
  rw [hres]
  rfl

lemma GOFSM_OnTick_exec_failure (env : TransId → Bool) (g : GOFSM_t) (t : TransId)
    (hc : g.transition_current = some t)
    (hres : (if (g.store t).has_function then env t else true) = false) :
    GOFSM_OnTick_exec env g = { g with is_transition_failure := true } := by
  unfold GOFSM_OnTick_exec
  rw [hc]
  dsimp only
  rw [hres]
  rfl

lemma GOFSM_OnTick_not_idle (env : TransId → Bool) (g : GOFSM_t)
    (hne : g.current_node_index ≠ g.target_node_index) :
    GOFSM_OnTick env g = GOFSM_OnTick_exec env (GOFSM_OnTick_plan g) := by
  unfold GOFSM_OnTick
  rw [if_neg hne]

/-- C4: on the retry path (previous attempt failed, no goal or topology change
since), the plan stage is the identity — the search engine is not consulted
and the cached transition is kept — so the tick attempts exactly the cached
transition; and while the action keeps failing, the whole tick is the
identity on the state, so the identical attempt repeats on every subsequent
tick. -/
theorem onTick_retry_same_transition (env : TransId → Bool) (g : GOFSM_t) (t : TransId)
    (hne : g.current_node_index ≠ g.target_node_index)
    (hf : g.is_transition_failure = true)
    (htc : g.is_target_change = false)
    (hgr : g.is_graph_reconfigured = false)
    (hc : g.transition_current = some t) :
    GOFSM_OnTick_plan g = g ∧
    GOFSM_OnTick env g = GOFSM_OnTick_exec env g ∧
    ((g.store t).has_function = true → env t = false →
      ∀ n : Nat, (GOFSM_OnTick env)^[n] g = g) := by
  have hplan : GOFSM_OnTick_plan g = g := by
    unfold GOFSM_OnTick_plan
    rw [hf, htc, hgr]
    exact if_neg (by decide)
  have htick : GOFSM_OnTick env g = GOFSM_OnTick_exec env g := by
    rw [GOFSM_OnTick_not_idle env g hne, hplan]
  refine ⟨hplan, htick, ?_⟩
  intro hfun henv
  have hres : (if (g.store t).has_function then env t else true) = false := by
    rw [hfun, if_pos rfl, henv]
  have hfix : GOFSM_OnTick env g = g := by
    rw [htick, GOFSM_OnTick_exec_failure env g t hc hres, ← hf]
  intro n
  induction n with
  | zero => rfl
  | succ n ih => rw [Function.iterate_succ_apply, hfix, ih]

/-- Witness for C4 on a concrete retry-state engine with a failing action. -/
theorem onTick_retry_same_transition_witness :
    exEngineRetry.current_node_index ≠ exEngineRetry.target_node_index ∧
    exEngineRetry.is_transition_failure = true ∧
    exEngineRetry.is_target_change = false ∧
    exEngineRetry.is_graph_reconfigured = false ∧
    exEngineRetry.transition_current = some 0 ∧
    (GOFSM_OnTick_plan exEngineRetry = exEngineRetry ∧
      GOFSM_OnTick exEnvFail exEngineRetry = GOFSM_OnTick_exec exEnvFail exEngineRetry ∧
      ((exEngineRetry.store 0).has_function = true → exEnvFail 0 = false →
        ∀ n : Nat, (GOFSM_OnTick exEnvFail)^[n] exEngineRetry = exEngineRetry)) :=
  ⟨by decide, rfl, rfl, rfl, rfl,
    onTick_retry_same_transition exEnvFail exEngineRetry 0 (by decide) rfl rfl rfl rfl⟩

/-- C5: when the tick attempts a cached transition `t` (i.e. after the plan
stage the cache holds `t`), an absent action or a succeeding action advances
the current node to `t`'s destination and clears the failure flag; a failing
action sets the failure flag, leaves the current node where it was and keeps
the same transition cached for the next tick. -/
theorem onTick_attempt_semantics (env : TransId → Bool) (g : GOFSM_t) (t : TransId)
    (hne : g.current_node_index ≠ g.target_node_index)
    (hc : (GOFSM_OnTick_plan g).transition_current = some t) :
    (((g.store t).has_function = false ∨ env t = true) →
      (GOFSM_OnTick env g).current_node_index = (g.store t).destination_node_index ∧
      (GOFSM_OnTick env g).is_transition_failure = false) ∧
    ((g.store t).has_function = true → env t = false →
      (GOFSM_OnTick env g).is_transition_failure = true ∧
      (GOFSM_OnTick env g).current_node_index = g.current_node_index ∧
      (GOFSM_OnTick env g).transition_current = some t) := by
  have hstore : (GOFSM_OnTick_plan g).store = g.store := (GOFSM_OnTick_plan_frame g).1
  have htick := GOFSM_OnTick_not_idle env g hne
  constructor
  · intro hok
    have hres : (if ((GOFSM_OnTick_plan g).store t).has_function then env t else true) = true := by
      rw [hstore]
      rcases hok with hfun | henv
      · rw [hfun, if_neg (by simp)]
      · cases hh : (g.store t).has_function <;> simp [henv]
    rw [htick, GOFSM_OnTick_exec_success env _ t hc hres]
    exact ⟨by rw [hstore], rfl⟩
  · intro hfun henv
    have hres : (if ((GOFSM_OnTick_plan g).store t).has_function then env t else true) = false := by
      rw [hstore, hfun, if_pos rfl, henv]
    rw [htick, GOFSM_OnTick_exec_failure env _ t hc hres]
    exact ⟨rfl, (GOFSM_OnTick_plan_frame g).2.2.2.2.1, hc⟩

/-- Witness for C5 on the concrete retry-state engine. -/
theorem onTick_attempt_semantics_witness :
    exEngineRetry.current_node_index ≠ exEngineRetry.target_node_index ∧
    (GOFSM_OnTick_plan exEngineRetry).transition_current = some 0 ∧
    ((((exEngineRetry.store 0).has_function = false ∨ exEnvFail 0 = true) →
      (GOFSM_OnTick exEnvFail exEngineRetry).current_node_index =
        (exEngineRetry.store 0).destination_node_index ∧
      (GOFSM_OnTick exEnvFail exEngineRetry).is_transition_failure = false) ∧
    ((exEngineRetry.store 0).has_function = true → exEnvFail 0 = false →
      (GOFSM_OnTick exEnvFail exEngineRetry).is_transition_failure = true ∧
      (GOFSM_OnTick exEnvFail exEngineRetry).current_node_index =
        exEngineRetry.current_node_index ∧
      (GOFSM_OnTick exEnvFail exEngineRetry).transition_current = some 0)) :=
  ⟨by decide, rfl, onTick_attempt_semantics exEnvFail exEngineRetry 0 (by decide) rfl⟩

/-- C10: the failure-implies-cached invariant holds after `GOFSM_InitStatic`
and is preserved by every public operation; consequently, whenever
current ≠ target and nothing is cached, the failure flag must be clear, so
the plan stage always re-invokes `GOFSM_SearchNextStep`; and a replanning
tick whose search finds no transition clears the failure flag. -/
theorem failure_implies_cached_invariant :
    (∀ g : GOFSM_t, FailureCacheInv (GOFSM_InitStatic g)) ∧
    (∀ (op : Op) (g : GOFSM_t), FailureCacheInv g → FailureCacheInv (applyOp op g)) ∧
    (∀ g : GOFSM_t, FailureCacheInv g →
      g.current_node_index ≠ g.target_node_index →
      g.transition_current = none →
      GOFSM_OnTick_plan g =
        { g with
            transition_current := GOFSM_SearchNextStep g
            is_target_change := false
            is_graph_reconfigured := false }) ∧
    (∀ (env : TransId → Bool) (g : GOFSM_t),
      g.current_node_index ≠ g.target_node_index →
      (!g.is_transition_failure || g.is_target_change || g.is_graph_reconfigured) = true →
      GOFSM_SearchNextStep g = none →
      (GOFSM_OnTick env g).is_transition_failure = false) := by
  have hplan_replan : ∀ g : GOFSM_t,
      (!g.is_transition_failure || g.is_target_change || g.is_graph_reconfigured) = true →
      GOFSM_OnTick_plan g =
        { g with
            transition_current := GOFSM_SearchNextStep g
            is_target_change := false
            is_graph_reconfigured := false } := by
    intro g hcond
    unfold GOFSM_OnTick_plan
    rw [if_pos hcond]
  have htickInv : ∀ (env : TransId → Bool) (g : GOFSM_t),
      FailureCacheInv g → FailureCacheInv (GOFSM_OnTick env g) := by
    intro env g hInv
    unfold GOFSM_OnTick
    split
    · exact hInv
    · rcases hpc : (GOFSM_OnTick_plan g).transition_current with _ | t
      · rw [GOFSM_OnTick_exec_none env _ hpc]
        intro h
        exact absurd h (by simp)
      · cases hres : (if ((GOFSM_OnTick_plan g).store t).has_function then env t else true) with
        | true =>
          rw [GOFSM_OnTick_exec_success env _ t hpc hres]
          intro h
          exact absurd h (by simp)
        | false =>
          rw [GOFSM_OnTick_exec_failure env _ t hpc hres]
          intro _
          show (GOFSM_OnTick_plan g).transition_current ≠ none
          rw [hpc]
          simp
  refine ⟨?_, ?_, ?_, ?_⟩
  · intro g h
    exact absurd h (by simp [GOFSM_InitStatic])
  · intro op g hInv
    cases op with
    | addTr t =>
      simp only [applyOp, GOFSM_AddTransition]
      split
      · exact hInv
      · exact hInv
    | removeTr t =>
      simp only [applyOp, GOFSM_RemoveTransition]
      split
      · exact hInv
      · exact hInv
    | setStateTr t s => exact hInv
    | setCur n => exact hInv
    | setTgt n => exact hInv
    | tick env => exact htickInv env g hInv
  · intro g hInv hne hcache
    have hfail : g.is_transition_failure = false := by
      cases hfb : g.is_transition_failure with
      | false => rfl
      | true => exact absurd hcache (hInv hfb)
    exact hplan_replan g (by rw [hfail]; rfl)
  · intro env g hne hcond hsearch
    rw [GOFSM_OnTick_not_idle env g hne, hplan_replan g hcond,
      GOFSM_OnTick_exec_none env _ (by rw [← hsearch])]

/-- Witness for C10: on the concrete no-path engine with empty cache, the
plan stage re-invokes the search. -/
theorem failure_implies_cached_invariant_witness :
    FailureCacheInv exEngineNoPath ∧
    exEngineNoPath.current_node_index ≠ exEngineNoPath.target_node_index ∧
    exEngineNoPath.transition_current = none ∧
    GOFSM_OnTick_plan exEngineNoPath =
      { exEngineNoPath with
          transition_current := GOFSM_SearchNextStep exEngineNoPath
          is_target_change := false
          is_graph_reconfigured := false } :=
  ⟨fun h => absurd h (by decide), by decide, rfl,
    failure_implies_cached_invariant.2.2.1 exEngineNoPath
      (fun h => absurd h (by decide)) (by decide) rfl⟩

/-- C9: a tick with current node equal to target node is the identity on the
engine state: no field changes and no action is invoked. -/
theorem onTick_idle_frame (env : TransId → Bool) (g : GOFSM_t)
    (h : g.current_node_index = g.target_node_index) :
    GOFSM_OnTick env g = g := by
  unfold GOFSM_OnTick
  rw [if_pos h]

/-- Witness for C9 on a concrete idle engine. -/
theorem onTick_idle_frame_witness :
    exEngineIdle.current_node_index = exEngineIdle.target_node_index ∧
    GOFSM_OnTick exEnvFail exEngineIdle = exEngineIdle :=
  ⟨rfl, onTick_idle_frame exEnvFail exEngineIdle rfl⟩

/-! ## Structural lemmas about the search scans -/

lemma nodup_append_single {l : List NodeIndex} {x : NodeIndex}
    (h : l.Nodup) (hx : x ∉ l) : (l ++ [x]).Nodup := by
  rw [List.nodup_append]
  refine ⟨h, List.nodup_singleton x, ?_⟩
  intro a ha hb
  rw [List.mem_singleton] at hb
  subst hb
  exact hx ha

/-- The node scan appends to the buffer without rewriting it: the result is
`vis ++ extra` where every appended node is fresh, is not the current node,
and is the source of some enabled registered transition into `node`; and the
appends preserve `Nodup`. -/
lemma searchScanNode_vis (store : TransId → Transition) (cur node : NodeIndex) :
    ∀ (sub : List TransId) (vis : List NodeIndex),
      ∃ extra : List NodeIndex,
        (searchScanNode store cur node sub vis).2 = vis ++ extra ∧
        (∀ x ∈ extra, x ∉ vis ∧ x ≠ cur ∧
          ∃ t ∈ sub, (store t).state = TransitionState.Available ∧
            (store t).destination_node_index = node ∧ (store t).source_node_index = x) ∧
        (vis.Nodup → (vis ++ extra).Nodup) := by
  intro sub
  induction sub with
  | nil =>
    intro vis
    exact ⟨[], by simp [searchScanNode], by simp, fun h => by simpa using h⟩
  | cons t0 rest ih =>
    intro vis
    by_cases hd0 : (store t0).destination_node_index = node
    · by_cases hs0 : (store t0).state = TransitionState.Available
      · by_cases hc0 : (store t0).source_node_index = cur
        · simp only [searchScanNode, if_pos hd0, if_pos hs0, if_pos hc0]
          exact ⟨[], by simp, by simp, fun h => by simpa using h⟩
        · by_cases hm0 : (store t0).source_node_index ∈ vis
          · simp only [searchScanNode, if_pos hd0, if_pos hs0, if_neg hc0, if_pos hm0]
            obtain ⟨extra, h1, h2, h3⟩ := ih vis
            refine ⟨extra, h1, ?_, h3⟩
            intro x hx
            obtain ⟨ha, hb, t, ht, hrest⟩ := h2 x hx
            exact ⟨ha, hb, t, List.mem_cons_of_mem t0 ht, hrest⟩
          · simp only [searchScanNode, if_pos hd0, if_pos hs0, if_neg hc0, if_neg hm0]
            obtain ⟨extra, h1, h2, h3⟩ :=
              ih (vis ++ [(store t0).source_node_index])
            refine ⟨(store t0).source_node_index :: extra, ?_, ?_, ?_⟩
            · rw [h1, List.append_assoc]
              rfl
            · intro x hx
              rcases List.mem_cons.mp hx with rfl | hx'
              · exact ⟨hm0, hc0, t0, List.mem_cons_self t0 rest, hs0, hd0, rfl⟩
              · obtain ⟨ha, hb, t, ht, hrest⟩ := h2 x hx'
                refine ⟨fun hv => ha (List.mem_append_left _ hv), hb,
                  t, List.mem_cons_of_mem t0 ht, hrest⟩
            · intro hnd
              have hnd2 := h3 (nodup_append_single hnd hm0)
              rw [List.append_assoc] at hnd2
              exact hnd2
      · simp only [searchScanNode, if_pos hd0, if_neg hs0]
        obtain ⟨extra, h1, h2, h3⟩ := ih vis
        refine ⟨extra, h1, ?_, h3⟩
        intro x hx
        obtain ⟨ha, hb, t, ht, hrest⟩ := h2 x hx
        exact ⟨ha, hb, t, List.mem_cons_of_mem t0 ht, hrest⟩
    · simp only [searchScanNode, if_neg hd0]
      obtain ⟨extra, h1, h2, h3⟩ := ih vis
      refine ⟨extra, h1, ?_, h3⟩
      intro x hx
      obtain ⟨ha, hb, t, ht, hrest⟩ := h2 x hx
      exact ⟨ha, hb, t, List.mem_cons_of_mem t0 ht, hrest⟩

/-- The node scan returns exactly the first transition in registration order
satisfying the immediate-return condition for `node`, independently of the
buffer contents. -/
lemma searchScanNode_find (store : TransId → Transition) (cur node : NodeIndex) :
    ∀ (sub : List TransId) (vis : List NodeIndex),
      (searchScanNode store cur node sub vis).1 =
        sub.find? (fun u => rmatch store cur node u) := by
  intro sub
  induction sub with
  | nil => intro vis; simp [searchScanNode]
  | cons t0 rest ih =>
    intro vis
    by_cases hd0 : (store t0).destination_node_index = node
    · by_cases hs0 : (store t0).state = TransitionState.Available
      · by_cases hc0 : (store t0).source_node_index = cur
        · have hp : rmatch store cur node t0 = true := by
            simp [rmatch, hd0, hs0, hc0]
          simp only [searchScanNode, if_pos hd0, if_pos hs0, if_pos hc0,
            List.find?_cons_of_pos _ hp]
        · have hq : ¬ (fun u => rmatch store cur node u) t0 = true := by
            simp [rmatch, hc0]
          by_cases hm0 : (store t0).source_node_index ∈ vis
          · simp only [searchScanNode, if_pos hd0, if_pos hs0, if_neg hc0, if_pos hm0]
            rw [List.find?_cons_of_neg rest hq]
            exact ih vis
          · simp only [searchScanNode, if_pos hd0, if_pos hs0, if_neg hc0, if_neg hm0]
            rw [List.find?_cons_of_neg rest hq]
            exact ih _
      · have hq : ¬ (fun u => rmatch store cur node u) t0 = true := by
          simp [rmatch, hs0]
        simp only [searchScanNode, if_pos hd0, if_neg hs0]
        rw [List.find?_cons_of_neg rest hq]
        exact ih vis
    · have hq : ¬ (fun u => rmatch store cur node u) t0 = true := by
        simp [rmatch, hd0]
      simp only [searchScanNode, if_neg hd0]
      rw [List.find?_cons_of_neg rest hq]
      exact ih vis

/-- If the node scan returns nothing, then no scanned enabled in-edge of
`node` starts at the current node, and every scanned enabled in-edge's source
ends up in the buffer. -/
lemma searchScanNode_none (store : TransId → Transition) (cur node : NodeIndex) :
    ∀ (sub : List TransId) (vis : List NodeIndex),
      (searchScanNode store cur node sub vis).1 = none →
      ∀ t ∈ sub, (store t).destination_node_index = node →
        (store t).state = TransitionState.Available →
        (store t).source_node_index ≠ cur ∧
        (store t).source_node_index ∈ (searchScanNode store cur node sub vis).2 := by
  intro sub
  induction sub with
  | nil => intro vis _ t ht; exact absurd ht (List.not_mem_nil t)
  | cons t0 rest ih =>
    intro vis hnone t ht hd hs
    by_cases hd0 : (store t0).destination_node_index = node
    · by_cases hs0 : (store t0).state = TransitionState.Available
      · by_cases hc0 : (store t0).source_node_index = cur
        · exfalso
          simp only [searchScanNode, if_pos hd0, if_pos hs0, if_pos hc0] at hnone
          exact Option.some_ne_none t0 hnone
        · by_cases hm0 : (store t0).source_node_index ∈ vis
          · simp only [searchScanNode, if_pos hd0, if_pos hs0, if_neg hc0,
              if_pos hm0] at hnone ⊢
            rcases List.mem_cons.mp ht with rfl | ht'
            · obtain ⟨extra, h1, -, -⟩ := searchScanNode_vis store cur node rest vis
              exact ⟨hc0, by rw [h1]; exact List.mem_append_left _ hm0⟩
            · exact ih vis hnone t ht' hd hs
          · simp only [searchScanNode, if_pos hd0, if_pos hs0, if_neg hc0,
              if_neg hm0] at hnone ⊢
            rcases List.mem_cons.mp ht with rfl | ht'
            · obtain ⟨extra, h1, -, -⟩ :=
                searchScanNode_vis store cur node rest
                  (vis ++ [(store t).source_node_index])
              refine ⟨hc0, ?_⟩
              rw [h1]
              exact List.mem_append_left _
                (List.mem_append_right _ (List.mem_singleton_self _))
            · exact ih _ hnone t ht' hd hs
      · simp only [searchScanNode, if_pos hd0, if_neg hs0] at hnone ⊢
        rcases List.mem_cons.mp ht with rfl | ht'
        · exact absurd hs hs0
        · exact ih vis hnone t ht' hd hs
    · simp only [searchScanNode, if_neg hd0] at hnone ⊢
      rcases List.mem_cons.mp ht with rfl | ht'
      · exact absurd hd hd0
      · exact ih vis hnone t ht' hd hs

/-- Layer-level version of `searchScanNode_vis`: one layer appends only
fresh, non-current sources of enabled transitions into the working slice. -/
lemma searchScanLayer_vis (store : TransId → Transition) (cur : NodeIndex)
    (ts : List TransId) :
    ∀ (work : List NodeIndex) (vis : List NodeIndex),
      ∃ extra : List NodeIndex,
        (searchScanLayer store cur ts work vis).2 = vis ++ extra ∧
        (∀ x ∈ extra, x ∉ vis ∧ x ≠ cur ∧
          ∃ w ∈ work, ∃ t ∈ ts, (store t).state = TransitionState.Available ∧
            (store t).destination_node_index = w ∧ (store t).source_node_index = x) ∧
        (vis.Nodup → (vis ++ extra).Nodup) := by
  intro work
  induction work with
  | nil =>
    intro vis
    exact ⟨[], by simp [searchScanLayer], by simp, fun h => by simpa using h⟩
  | cons w restW ih =>
    intro vis
    obtain ⟨e1, he1, hp1, hn1⟩ := searchScanNode_vis store cur w ts vis
    cases hsn : searchScanNode store cur w ts vis with
    | mk r vis2 =>
      have hvis2 : vis2 = vis ++ e1 := by rw [← he1, hsn]
      cases r with
      | some t =>
        refine ⟨e1, ?_, ?_, hn1⟩
        · simp only [searchScanLayer, hsn]
          exact hvis2
        · intro x hx
          obtain ⟨ha, hb, t', ht', hrest⟩ := hp1 x hx
          exact ⟨ha, hb, w, List.mem_cons_self w restW, t', ht', hrest⟩
      | none =>
        obtain ⟨e2, he2, hp2, hn2⟩ := ih vis2
        refine ⟨e1 ++ e2, ?_, ?_, ?_⟩
        · simp only [searchScanLayer, hsn]
          rw [he2, hvis2, List.append_assoc]
        · intro x hx
          rcases List.mem_append.mp hx with hx1 | hx2
          · obtain ⟨ha, hb, t', ht', hrest⟩ := hp1 x hx1
            exact ⟨ha, hb, w, List.mem_cons_self w restW, t', ht', hrest⟩
          · obtain ⟨ha, hb, w', hw', t', ht', hrest⟩ := hp2 x hx2
            refine ⟨fun hv => ha ?_, hb, w', List.mem_cons_of_mem w hw', t', ht', hrest⟩
            rw [hvis2]
            exact List.mem_append_left _ hv
        · intro hnd
          have := hn2 (by rw [hvis2]; exact hn1 hnd)
          rw [hvis2, List.append_assoc] at this
          exact this

/-- If a whole layer returns nothing, then no enabled in-edge of any working
node starts at the current node, and all those in-edges' sources are in the
final buffer. -/
lemma searchScanLayer_none (store : TransId → Transition) (cur : NodeIndex)
    (ts : List TransId) :
    ∀ (work : List NodeIndex) (vis : List NodeIndex),
      (searchScanLayer store cur ts work vis).1 = none →
      ∀ w ∈ work, ∀ t ∈ ts, (store t).destination_node_index = w →
        (store t).state = TransitionState.Available →
        (store t).source_node_index ≠ cur ∧
        (store t).source_node_index ∈ (searchScanLayer store cur ts work vis).2 := by
  intro work
  induction work with
  | nil => intro vis _ w hw; exact absurd hw (List.not_mem_nil w)
  | cons w0 restW ih =>
    intro vis hnone w hw t ht hd hs
    cases hsn : searchScanNode store cur w0 ts vis with
    | mk r vis2 =>
      cases r with
      | some t' =>
        exfalso
        simp only [searchScanLayer, hsn] at hnone
        exact Option.some_ne_none t' hnone
      | none =>
        simp only [searchScanLayer, hsn] at hnone ⊢
        obtain ⟨e2, he2, -, -⟩ := searchScanLayer_vis store cur ts restW vis2
        rcases List.mem_cons.mp hw with rfl | hw'
        · have h1 :=
            searchScanNode_none store cur w ts vis (by rw [hsn]) t ht hd hs
          refine ⟨h1.1, ?_⟩
          rw [he2]
          refine List.mem_append_left _ ?_
          have := h1.2
          rw [hsn] at this
          exact this
        · exact ih vis2 hnone w hw' t ht hd hs

/-- A returned transition is, for some working node `w`, the first transition
in registration order satisfying the immediate-return condition for `w`. -/
lemma searchScanLayer_some_find (store : TransId → Transition) (cur : NodeIndex)
    (ts : List TransId) :
    ∀ (work : List NodeIndex) (vis : List NodeIndex) (t : TransId),
      (searchScanLayer store cur ts work vis).1 = some t →
      ∃ w ∈ work, ts.find? (fun u => rmatch store cur w u) = some t := by
  intro work
  induction work with
  | nil => intro vis t h; simp [searchScanLayer] at h
  | cons w0 restW ih =>
    intro vis t h
    cases hsn : searchScanNode store cur w0 ts vis with
    | mk r vis2 =>
      cases r with
      | some t' =>
        simp only [searchScanLayer, hsn] at h
        obtain rfl : t' = t := by exact Option.some_injective _ h
        refine ⟨w0, List.mem_cons_self w0 restW, ?_⟩
        rw [← searchScanNode_find store cur w0 ts vis, hsn]
      | none =>
        simp only [searchScanLayer, hsn] at h
        obtain ⟨w, hw, hfind⟩ := ih vis2 t h
        exact ⟨w, List.mem_cons_of_mem w0 hw, hfind⟩

/-! ## Loop-level lemmas -/

/-- A loop entered with an exhausted cursor stops at once with an unchanged
buffer (this is the `while(planned_length)` exit). -/
lemma searchLoop_at_end (store : TransId → Transition) (cur : NodeIndex)
    (ts : List TransId) (fuel : Nat) (vis : List NodeIndex) (ws : Nat)
    (h : vis.length ≤ ws) :
    searchLoop store cur ts fuel vis ws = (none, vis) := by
  cases fuel with
  | zero => rfl
  | succ n =>
    simp [searchLoop, List.drop_eq_nil_of_le h]

/-- Buffer discipline over the whole loop: `Nodup` is preserved and every
buffer cell holds either an initial cell or the source of some registered
transition. -/
lemma searchLoop_buffer (store : TransId → Transition) (cur : NodeIndex)
    (ts : List TransId) :
    ∀ (fuel : Nat) (vis : List NodeIndex) (ws : Nat), vis.Nodup →
      (searchLoop store cur ts fuel vis ws).2.Nodup ∧
      (∀ x ∈ (searchLoop store cur ts fuel vis ws).2,
        x ∈ vis ∨ ∃ t ∈ ts, (store t).source_node_index = x) := by
  intro fuel
  induction fuel with
  | zero => intro vis ws hnd; exact ⟨hnd, fun x hx => Or.inl hx⟩
  | succ n ih =>
    intro vis ws hnd
    by_cases hwork : (vis.drop ws).isEmpty
    · simp only [searchLoop, hwork, if_pos]
      exact ⟨hnd, fun x hx => Or.inl hx⟩
    · obtain ⟨e1, he1, hp1, hn1⟩ := searchScanLayer_vis store cur ts (vis.drop ws) vis
      cases hsl : searchScanLayer store cur ts (vis.drop ws) vis with
      | mk r vis2 =>
        have hvis2 : vis2 = vis ++ e1 := by rw [← he1, hsl]
        have hnd2 : vis2.Nodup := by rw [hvis2]; exact hn1 hnd
        cases r with
        | some t =>
          simp only [searchLoop, hwork, if_neg, hsl]
          refine ⟨hnd2, ?_⟩
          intro x hx
          rw [hvis2] at hx
          rcases List.mem_append.mp hx with hx1 | hx2
          · exact Or.inl hx1
          · obtain ⟨-, -, w, -, t', ht', -, -, hsrc⟩ := hp1 x hx2
            exact Or.inr ⟨t', ht', hsrc⟩
        | none =>
          simp only [searchLoop, hwork, if_neg, hsl]
          obtain ⟨ha, hb⟩ := ih vis2 vis.length hnd2
          refine ⟨ha, ?_⟩
          intro x hx
          rcases hb x hx with hx1 | hx2
          · rw [hvis2] at hx1
            rcases List.mem_append.mp hx1 with hy1 | hy2
            · exact Or.inl hy1
            · obtain ⟨-, -, w, -, t', ht', -, -, hsrc⟩ := hp1 x hy2
              exact Or.inr ⟨t', ht', hsrc⟩
          · exact Or.inr hx2

/-- Loop-level first-match property: whatever the loop returns is the first
registration-order match for some frontier node. -/
lemma searchLoop_some_find (store : TransId → Transition) (cur : NodeIndex)
    (ts : List TransId) :
    ∀ (fuel : Nat) (vis : List NodeIndex) (ws : Nat) (t : TransId),
      (searchLoop store cur ts fuel vis ws).1 = some t →
      ∃ w, ts.find? (fun u => rmatch store cur w u) = some t := by
  intro fuel
  induction fuel with
  | zero => intro vis ws t h; simp [searchLoop] at h
  | succ n ih =>
    intro vis ws t h
    by_cases hwork : (vis.drop ws).isEmpty
    · rw [searchLoop] at h
      simp only [if_pos hwork] at h
      exact absurd h (by simp)
    · rw [searchLoop] at h
      simp only [if_neg hwork] at h
      cases hsl : searchScanLayer store cur ts (vis.drop ws) vis with
      | mk r vis2 =>
        rw [hsl] at h
        cases r with
        | some t2 =>
          simp only at h
          obtain rfl : t2 = t := Option.some_injective _ h
          obtain ⟨w, -, hfind⟩ :=
            searchScanLayer_some_find store cur ts (vis.drop ws) vis t2
              (by rw [hsl])
          exact ⟨w, hfind⟩
        | none =>
          simp only at h
          exact ih vis2 vis.length t h

/-- C7: under the construction-time capacity contract — the node domain (the
target node and every source and destination index of a registered
transition) lies below `nodes_capacity` — a search pass never adds a node to
the scratch buffer twice (the final buffer is duplicate-free), and since the
k-th buffer write of a pass lands exactly at position k, every write stays in
bounds (the final buffer length is at most `nodes_capacity`). -/
theorem search_buffer_bounds (g : GOFSM_t)
    (hT : g.target_node_index < g.nodes_capacity)
    (hdom : ∀ t ∈ g.transitions,
      (g.store t).source_node_index < g.nodes_capacity ∧
      (g.store t).destination_node_index < g.nodes_capacity) :
    (GOFSM_SearchNextStepFull g).2.Nodup ∧
    (GOFSM_SearchNextStepFull g).2.length ≤ g.nodes_capacity := by
  obtain ⟨hnd, hmem⟩ := searchLoop_buffer g.store g.current_node_index
    g.transitions (g.transitions.length + 2) [g.target_node_index] 0
    (List.nodup_singleton _)
  refine ⟨hnd, ?_⟩
  have hlt : ∀ x ∈ (GOFSM_SearchNextStepFull g).2, x < g.nodes_capacity := by
    intro x hx
    rcases hmem x hx with hx1 | ⟨t, ht, hsrc⟩
    · rw [List.mem_singleton] at hx1
      rw [hx1]
      exact hT
    · rw [← hsrc]
      exact (hdom t ht).1
  calc (GOFSM_SearchNextStepFull g).2.length
      = (GOFSM_SearchNextStepFull g).2.toFinset.card :=
        (List.toFinset_card_of_nodup hnd).symm
    _ ≤ (Finset.range g.nodes_capacity).card :=
        Finset.card_le_card
          (fun x hx => Finset.mem_range.mpr (hlt x (List.mem_toFinset.mp hx)))
    _ = g.nodes_capacity := Finset.card_range _

/-- Witness for C7 on the concrete chain engine. -/
theorem search_buffer_bounds_witness :
    exEngineChain.target_node_index < exEngineChain.nodes_capacity ∧
    (∀ t ∈ exEngineChain.transitions,
      (exEngineChain.store t).source_node_index < exEngineChain.nodes_capacity ∧
      (exEngineChain.store t).destination_node_index < exEngineChain.nodes_capacity) ∧
    ((GOFSM_SearchNextStepFull exEngineChain).2.Nodup ∧
      (GOFSM_SearchNextStepFull exEngineChain).2.length ≤ exEngineChain.nodes_capacity) :=
  ⟨by decide, by decide, search_buffer_bounds exEngineChain (by decide) (by decide)⟩

/-- If the first match in a list whose tail segment starts with a matching
element `a` is `r`, then `r` occurs before `a` or is `a` itself. -/
lemma find?_first_segment {p : TransId → Bool} :
    ∀ (l₁ : List TransId) (a : TransId) (l₂ : List TransId) (r : TransId),
      p a = true → List.find? p (l₁ ++ a :: l₂) = some r → r ∈ l₁ ∨ r = a := by
  intro l₁
  induction l₁ with
  | nil =>
    intro a l₂ r hp hf
    rw [List.nil_append, List.find?_cons_of_pos _ hp] at hf
    exact Or.inr (Option.some_injective _ hf).symm
  | cons b rest ih =>
    intro a l₂ r hp hf
    rw [List.cons_append] at hf
    cases hb : p b with
    | true =>
      rw [List.find?_cons_of_pos _ hb] at hf
      rw [← Option.some_injective _ hf]
      exact Or.inl (List.mem_cons_self b _)
    | false =>
      rw [List.find?_cons_of_neg _ (by simp [hb])] at hf
      rcases ih a l₂ r hp hf with h1 | h2
      · exact Or.inl (List.mem_cons_of_mem b h1)
      · exact Or.inr h2

/-- Counterexample to C6 as stated: in `exEngineTie` (current=0, target=3),
the enabled edges X = transition 2 (0→2) and Y = transition 3 (0→1) leave the
same source 0 = current and X is registered before Y; both destinations are
reached by the search pass (both are in the final scratch buffer, i.e. both
edges satisfy the immediate-return condition in this search call), yet the
search returns Y, because Y's destination entered the frontier earlier and
frontier order is examined before registration order. -/
theorem search_tie_break_counterexample :
    GOFSM_SearchNextStep exEngineTie = some 3 ∧
    exEngineTie.transitions = [0, 1, 2, 3] ∧
    (exEngineTie.store 2).source_node_index = exEngineTie.current_node_index ∧
    (exEngineTie.store 3).source_node_index = exEngineTie.current_node_index ∧
    (exEngineTie.store 2).state = TransitionState.Available ∧
    (exEngineTie.store 3).state = TransitionState.Available ∧
    (exEngineTie.store 2).destination_node_index ∈ (GOFSM_SearchNextStepFull exEngineTie).2 ∧
    (exEngineTie.store 3).destination_node_index ∈ (GOFSM_SearchNextStepFull exEngineTie).2 := by
  decide

/-- C6 (amended): edge selection is deterministic — the search is a function
of the registry contents and order — and the registration-order tie-break
holds for two enabled edges X-then-Y from the same source *with the same
destination* (for distinct destinations the frontier-entry order of the
destinations decides first, see the counterexample): when X with the same
source and destination as Y is enabled and no occurrence of Y precedes X in
the registry, Y is never the returned transition. -/
theorem search_tie_break_same_dest (g : GOFSM_t) (x y : TransId)
    (l₁ l₂ : List TransId)
    (hts : g.transitions = l₁ ++ x :: l₂)
    (hy1 : y ∉ l₁) (hxy : x ≠ y)
    (hsrc : (g.store x).source_node_index = (g.store y).source_node_index)
    (hdst : (g.store x).destination_node_index = (g.store y).destination_node_index)
    (hxav : (g.store x).state = TransitionState.Available) :
    GOFSM_SearchNextStep g ≠ some y := by
  intro hsome
  obtain ⟨w, hfind⟩ := searchLoop_some_find g.store g.current_node_index
    g.transitions (g.transitions.length + 2) [g.target_node_index] 0 y hsome
  have hy := List.find?_some hfind
  simp only [rmatch, Bool.and_eq_true, beq_iff_eq] at hy
  have hx : (fun u => rmatch g.store g.current_node_index w u) x = true := by
    simp only [rmatch, Bool.and_eq_true, beq_iff_eq]
    exact ⟨⟨by rw [hdst]; exact hy.1.1, hxav⟩, by rw [hsrc]; exact hy.2⟩
  rw [hts] at hfind
  rcases find?_first_segment l₁ x l₂ y hx hfind with h1 | h2
  · exact hy1 h1
  · exact hxy h2.symm

/-- Witness for the amended C6 on two parallel edges 0→1 registered in order
0 then 1. -/
theorem search_tie_break_same_dest_witness :
    exEngineDup.transitions = [] ++ 0 :: [1] ∧
    (1 : TransId) ∉ ([] : List TransId) ∧
    (0 : TransId) ≠ 1 ∧
    (exEngineDup.store 0).source_node_index = (exEngineDup.store 1).source_node_index ∧
    (exEngineDup.store 0).destination_node_index =
      (exEngineDup.store 1).destination_node_index ∧
    (exEngineDup.store 0).state = TransitionState.Available ∧
    GOFSM_SearchNextStep exEngineDup ≠ some 1 :=
  ⟨rfl, List.not_mem_nil 1, by decide, rfl, rfl, rfl,
    search_tie_break_same_dest exEngineDup 0 1 [] [1] rfl (List.not_mem_nil 1)
      (by decide) rfl rfl rfl⟩

/-! ## Reachability over the enabled registered transitions -/

lemma reachIn_zero_iff {store : TransId → Transition} {ts : List TransId}
    {a b : NodeIndex} : reachIn store ts 0 a b = true ↔ a = b := by
  simp [reachIn]

lemma reachIn_step (store : TransId → Transition) (ts : List TransId)
    {t : TransId} (ht : t ∈ ts)
    (ha : (store t).state = TransitionState.Available) {a : NodeIndex}
    (hs : (store t).source_node_index = a) {n : Nat} {tgt : NodeIndex}
    (hr : reachIn store ts n ((store t).destination_node_index) tgt = true) :
    reachIn store ts (n + 1) a tgt = true := by
  simp only [reachIn, List.any_eq_true]
  refine ⟨t, ht, ?_⟩
  rw [ha, hs]
  simp [hr]

lemma reachIn_unfold {store : TransId → Transition} {ts : List TransId}
    {n : Nat} {a tgt : NodeIndex}
    (h : reachIn store ts (n + 1) a tgt = true) :
    ∃ t ∈ ts, (store t).state = TransitionState.Available ∧
      (store t).source_node_index = a ∧
      reachIn store ts n ((store t).destination_node_index) tgt = true := by
  simp only [reachIn, List.any_eq_true, Bool.and_eq_true, beq_iff_eq] at h
  obtain ⟨t, ht, ⟨h1, h2⟩, h3⟩ := h
  exact ⟨t, ht, h1, h2, h3⟩

/-- The first edge of a shortest path leads to a node exactly one step
closer. -/
lemma distMin_descend {store : TransId → Transition} {ts : List TransId}
    {tgt : NodeIndex} {d : Nat} {v : NodeIndex}
    (h : distMin store ts (d + 1) v tgt) :
    ∃ t ∈ ts, (store t).state = TransitionState.Available ∧
      (store t).source_node_index = v ∧
      distMin store ts d ((store t).destination_node_index) tgt := by
  obtain ⟨t, ht, h1, h2, h3⟩ := reachIn_unfold h.1
  refine ⟨t, ht, h1, h2, h3, ?_⟩
  intro j hj
  have := h.2 (j + 1) (reachIn_step store ts ht h1 h2 hj)
  omega

/-- If some node sits at exact distance `d`, every distance `k ≤ d` is also
attained by some node (walk down a shortest path). -/
lemma exists_distMin_le {store : TransId → Transition} {ts : List TransId}
    {tgt : NodeIndex} :
    ∀ (d : Nat) (v : NodeIndex), distMin store ts d v tgt →
      ∀ k ≤ d, ∃ w, distMin store ts k w tgt := by
  intro d
  induction d with
  | zero =>
    intro v hv k hk
    obtain rfl := Nat.le_zero.mp hk
    exact ⟨v, hv⟩
  | succ d ih =>
    intro v hv k hk
    rcases Nat.lt_or_ge k (d + 1) with hlt | hge
    · obtain ⟨t, ht, h1, h2, hd⟩ := distMin_descend hv
      exact ih _ hd k (Nat.lt_succ_iff.mp hlt)
    · obtain rfl : k = d + 1 := le_antisymm hk hge
      exact ⟨v, hv⟩

/-- If the current node is farther than `k` from the target and no other node
sits at exact distance `k`, the current node cannot reach the target at
all (the frontier has died out). -/
lemma no_frontier_unreachable {store : TransId → Transition} {ts : List TransId}
    {cur tgt : NodeIndex} {k : Nat}
    (hfar : ∀ j ≤ k, reachIn store ts j cur tgt = false)
    (hempty : ∀ x, x ≠ cur → ¬ distMin store ts k x tgt) :
    ∀ m, reachIn store ts m cur tgt = false := by
  intro m
  by_contra hm
  rw [Bool.not_eq_false] at hm
  have hex : ∃ j, reachIn store ts j cur tgt = true := ⟨m, hm⟩
  have hre : reachIn store ts (Nat.find hex) cur tgt = true := Nat.find_spec hex
  have hdm : distMin store ts (Nat.find hex) cur tgt :=
    ⟨hre, fun j hj => Nat.find_min' hex hj⟩
  have hk : k < Nat.find hex := by
    by_contra hk'
    push_neg at hk'
    rw [hfar (Nat.find hex) hk'] at hre
    exact Bool.false_ne_true hre
  obtain ⟨w, hw1, hw2⟩ := exists_distMin_le (Nat.find hex) cur hdm k (le_of_lt hk)
  have hwc : w ≠ cur := by
    intro h
    rw [h, hfar k le_rfl] at hw1
    exact Bool.false_ne_true hw1
  exact hempty w hwc ⟨hw1, hw2⟩

/-- One completed layer that returned nothing advances the search invariant
from layer `k` to layer `k+1`: the appended cells are exactly the nodes at
exact distance `k+1` (current node excepted), and the current node is now
known to be farther than `k+1`. -/
lemma SearchInv_step {store : TransId → Transition} {ts : List TransId}
    {cur tgt : NodeIndex} {vis : List NodeIndex} {ws k : Nat}
    {extra : List NodeIndex}
    (inv : SearchInv store ts cur tgt vis ws k)
    (hvis2 : (searchScanLayer store cur ts (vis.drop ws) vis).2 = vis ++ extra)
    (hprops : ∀ x ∈ extra, x ∉ vis ∧ x ≠ cur ∧
      ∃ w ∈ vis.drop ws, ∃ t ∈ ts, (store t).state = TransitionState.Available ∧
        (store t).destination_node_index = w ∧ (store t).source_node_index = x)
    (hnd2 : (vis ++ extra).Nodup)
    (hnone : (searchScanLayer store cur ts (vis.drop ws) vis).1 = none) :
    SearchInv store ts cur tgt (vis ++ extra) vis.length (k + 1) := by
  have key_new : ∀ x ∈ extra, x ∉ vis ∧ x ≠ cur ∧ distMin store ts (k + 1) x tgt := by
    intro x hx
    obtain ⟨hxv, hxc, w, hw, t, ht, hav, hdst, hsrc⟩ := hprops x hx
    obtain ⟨hwc, hwd⟩ := (inv.work_iff w).mp hw
    have hreach : reachIn store ts (k + 1) x tgt = true := by
      refine reachIn_step store ts ht hav hsrc ?_
      rw [hdst]
      exact hwd.1
    refine ⟨hxv, hxc, hreach, ?_⟩
    intro j hj
    by_contra hjk
    push_neg at hjk
    exact hxv ((inv.mem_iff x).mpr ⟨hxc, j, by omega, hj⟩)
  have cur_far2 : ∀ j ≤ k + 1, reachIn store ts j cur tgt = false := by
    intro j hj
    rcases Nat.lt_or_ge j (k + 1) with hlt | hge
    · exact inv.cur_far j (Nat.lt_succ_iff.mp hlt)
    · obtain rfl : j = k + 1 := le_antisymm hj hge
      by_contra hcontra
      rw [Bool.not_eq_false] at hcontra
      obtain ⟨t, ht, hav, hsrc, hrw⟩ := reachIn_unfold hcontra
      have hwmin : ∀ j', reachIn store ts j' ((store t).destination_node_index) tgt = true →
          k ≤ j' := by
        intro j' hj'
        by_contra hj'k
        push_neg at hj'k
        have hstep := reachIn_step store ts ht hav hsrc hj'
        rw [inv.cur_far (j' + 1) (by omega)] at hstep
        exact Bool.false_ne_true hstep
      have hwc : (store t).destination_node_index ≠ cur := by
        intro hwcur
        rw [hwcur, inv.cur_far k le_rfl] at hrw
        exact Bool.false_ne_true hrw
      have hwork : (store t).destination_node_index ∈ vis.drop ws :=
        (inv.work_iff _).mpr ⟨hwc, hrw, hwmin⟩
      exact (searchScanLayer_none store cur ts (vis.drop ws) vis hnone
        _ hwork t ht rfl hav).1 hsrc
  have complete_new : ∀ x, x ≠ cur → distMin store ts (k + 1) x tgt → x ∈ extra := by
    intro x hxc hxd
    obtain ⟨t, ht, hav, hsrc, hwd⟩ := distMin_descend hxd
    have hwc : (store t).destination_node_index ≠ cur := by
      intro hwcur
      have h1 := hwd.1
      rw [hwcur, inv.cur_far k le_rfl] at h1
      exact Bool.false_ne_true h1
    have hwork : (store t).destination_node_index ∈ vis.drop ws :=
      (inv.work_iff _).mpr ⟨hwc, hwd⟩
    have hmem2 := (searchScanLayer_none store cur ts (vis.drop ws) vis hnone
      _ hwork t ht rfl hav).2
    rw [hvis2, hsrc] at hmem2
    rcases List.mem_append.mp hmem2 with hxv | hxe
    · exfalso
      obtain ⟨-, j, hjk, hj⟩ := (inv.mem_iff x).mp hxv
      have := hxd.2 j hj
      omega
    · exact hxe
  refine ⟨hnd2, ?_, ?_, cur_far2, ?_⟩
  · intro x
    constructor
    · intro hx
      rcases List.mem_append.mp hx with hxv | hxe
      · obtain ⟨hxc, j, hjk, hj⟩ := (inv.mem_iff x).mp hxv
        exact ⟨hxc, j, by omega, hj⟩
      · obtain ⟨-, hxc, hxd⟩ := key_new x hxe
        exact ⟨hxc, k + 1, le_rfl, hxd.1⟩
    · rintro ⟨hxc, j, hjk, hj⟩
      by_cases hxvis : x ∈ vis
      · exact List.mem_append_left _ hxvis
      · refine List.mem_append_right _ (complete_new x hxc ?_)
        have hminx : ∀ j', reachIn store ts j' x tgt = true → k + 1 ≤ j' := by
          intro j' hj'
          by_contra hc
          push_neg at hc
          exact hxvis ((inv.mem_iff x).mpr ⟨hxc, j', by omega, hj'⟩)
        obtain rfl : j = k + 1 := by
          have := hminx j hj
          omega
        exact ⟨hj, hminx⟩
  · intro x
    rw [List.drop_left]
    constructor
    · intro hx
      obtain ⟨-, hxc, hxd⟩ := key_new x hx
      exact ⟨hxc, hxd⟩
    · rintro ⟨hxc, hxd⟩
      exact complete_new x hxc hxd
  · rw [List.length_append]
    exact Nat.le_add_right _ _

/-- Main loop lemma: from a valid layer invariant with adequate fuel, a
returned transition is an enabled transition out of the current node lying on
a minimum-hop path to the target, and a `none` result means the target is
unreachable from the current node. -/
lemma searchLoop_main {store : TransId → Transition} {ts : List TransId}
    {cur tgt : NodeIndex} :
    ∀ (fuel : Nat) (vis : List NodeIndex) (ws k : Nat),
      SearchInv store ts cur tgt vis ws k →
      ((ts.map fun t => (store t).source_node_index).toFinset \ vis.toFinset).card + 2 ≤ fuel →
      (∀ t, (searchLoop store cur ts fuel vis ws).1 = some t →
        t ∈ ts ∧ (store t).state = TransitionState.Available ∧
        (store t).source_node_index = cur ∧
        ∃ n, reachIn store ts n ((store t).destination_node_index) tgt = true ∧
          reachIn store ts (n + 1) cur tgt = true ∧
          ∀ m, reachIn store ts m cur tgt = true → n + 1 ≤ m) ∧
      ((searchLoop store cur ts fuel vis ws).1 = none →
        ∀ m, reachIn store ts m cur tgt = false) := by
  intro fuel
  induction fuel with
  | zero =>
    intro vis ws k inv hbud
    exact absurd hbud (by omega)
  | succ n ih =>
    intro vis ws k inv hbud
    by_cases hwork : (vis.drop ws).isEmpty
    · have hempty : ∀ x, x ≠ cur → ¬ distMin store ts k x tgt := by
        intro x hxc hxd
        have hx := (inv.work_iff x).mpr ⟨hxc, hxd⟩
        rw [List.isEmpty_iff] at hwork
        rw [hwork] at hx
        exact absurd hx (List.not_mem_nil x)
      constructor
      · intro t ht
        rw [searchLoop] at ht
        simp only [if_pos hwork] at ht
        exact absurd ht (by simp)
      · intro _
        exact no_frontier_unreachable inv.cur_far hempty
    · obtain ⟨e1, he1, hp1, hn1⟩ := searchScanLayer_vis store cur ts (vis.drop ws) vis
      cases hsl : searchScanLayer store cur ts (vis.drop ws) vis with
      | mk r vis2 =>
        have hvis2 : vis2 = vis ++ e1 := by rw [← he1, hsl]
        cases r with
        | some t0 =>
          constructor
          · intro t ht
            rw [searchLoop] at ht
            simp only [if_neg hwork] at ht
            rw [hsl] at ht
            simp only at ht
            obtain rfl : t0 = t := Option.some_injective _ ht
            obtain ⟨w, hw, hfind⟩ :=
              searchScanLayer_some_find store cur ts (vis.drop ws) vis t0 (by rw [hsl])
            have hmem := List.mem_of_find?_eq_some hfind
            have hmatch := List.find?_some hfind
            simp only [rmatch, Bool.and_eq_true, beq_iff_eq] at hmatch
            obtain ⟨⟨hdst, hav⟩, hsrc⟩ := hmatch
            obtain ⟨hwc, hwd⟩ := (inv.work_iff w).mp hw
            refine ⟨hmem, hav, hsrc, k, ?_, ?_, ?_⟩
            · rw [hdst]
              exact hwd.1
            · refine reachIn_step store ts hmem hav hsrc ?_
              rw [hdst]
              exact hwd.1
            · intro m hm
              by_contra hc
              push_neg at hc
              rw [inv.cur_far m (by omega)] at hm
              exact Bool.false_ne_true hm
          · intro hnone'
            rw [searchLoop] at hnone'
            simp only [if_neg hwork] at hnone'
            rw [hsl] at hnone'
            simp only at hnone'
            exact absurd hnone' (by simp)
        | none =>
          have inv2 : SearchInv store ts cur tgt (vis ++ e1) vis.length (k + 1) :=
            SearchInv_step inv he1 hp1 (hn1 inv.nodup) (by rw [hsl])
          have hstep : searchLoop store cur ts (n + 1) vis ws =
              searchLoop store cur ts n vis2 vis.length := by
            rw [searchLoop]
            simp only [if_neg hwork]
            rw [hsl]
          by_cases he1e : e1 = []
          · subst he1e
            have hvv : vis2 = vis := by rw [hvis2, List.append_nil]
            have hend : searchLoop store cur ts n vis2 vis.length = (none, vis2) :=
              searchLoop_at_end store cur ts n vis2 vis.length (by rw [hvv])
            constructor
            · intro t ht
              rw [hstep, hend] at ht
              exact absurd ht (by simp)
            · intro _
              refine no_frontier_unreachable inv2.cur_far ?_
              intro x hxc hxd
              have hx := (inv2.work_iff x).mpr ⟨hxc, hxd⟩
              rw [List.append_nil, List.drop_length] at hx
              exact absurd hx (List.not_mem_nil x)
          · have he1nd : e1.Nodup := (hn1 inv.nodup).of_append_right
            have hcard_e1 : e1.toFinset.card = e1.length :=
              List.toFinset_card_of_nodup he1nd
            have hsub : e1.toFinset ⊆
                (ts.map fun t => (store t).source_node_index).toFinset \ vis.toFinset := by
              intro x hx
              rw [List.mem_toFinset] at hx
              obtain ⟨hxv, hxc, w, hw, t, ht, hav, hdst, hsrc⟩ := hp1 x hx
              rw [Finset.mem_sdiff, List.mem_toFinset, List.mem_toFinset]
              exact ⟨List.mem_map.mpr ⟨t, ht, hsrc⟩, hxv⟩
            have hbig : (ts.map fun t => (store t).source_node_index).toFinset \ vis2.toFinset =
                ((ts.map fun t => (store t).source_node_index).toFinset \ vis.toFinset) \
                  e1.toFinset := by
              rw [hvis2]
              ext a
              simp only [Finset.mem_sdiff, List.mem_toFinset, List.mem_append]
              tauto
            have hcard : ((ts.map fun t => (store t).source_node_index).toFinset \
                vis2.toFinset).card =
                ((ts.map fun t => (store t).source_node_index).toFinset \
                  vis.toFinset).card - e1.length := by
              rw [hbig, Finset.card_sdiff hsub, hcard_e1]
            have he1pos : 1 ≤ e1.length := List.length_pos.mpr he1e
            have hle : e1.length ≤
                ((ts.map fun t => (store t).source_node_index).toFinset \
                  vis.toFinset).card := by
              rw [← hcard_e1]
              exact Finset.card_le_card hsub
            have hbud2 : ((ts.map fun t => (store t).source_node_index).toFinset \
                vis2.toFinset).card + 2 ≤ n := by
              omega
            have hres := ih vis2 vis.length (k + 1) (by rw [hvis2]; exact inv2) hbud2
            rw [hstep]
            exact hres

/-- C3: for current ≠ target, if the target is reachable from the current
node through enabled (Available) registered transitions, then
`GOFSM_SearchNextStep` returns a registered enabled transition `t` out of the
current node lying on a minimum-edge-count path — its destination reaches the
target in some `n` steps while no path from the current node is shorter than
`n+1`; if the target is unreachable it returns NULL.  A Blocked transition is
never returned (the result is Available) and Blocked transitions do not
affect the reachability determination (`reachIn` counts only Available
ones). -/
theorem searchNextStep_min_path (g : GOFSM_t)
    (hne : g.current_node_index ≠ g.target_node_index) :
    ((∃ m, reachIn g.store g.transitions m g.current_node_index g.target_node_index = true) →
      ∃ t, GOFSM_SearchNextStep g = some t ∧ t ∈ g.transitions ∧
        (g.store t).state = TransitionState.Available ∧
        (g.store t).source_node_index = g.current_node_index ∧
        ∃ n, reachIn g.store g.transitions n ((g.store t).destination_node_index)
            g.target_node_index = true ∧
          reachIn g.store g.transitions (n + 1) g.current_node_index
            g.target_node_index = true ∧
          ∀ m, reachIn g.store g.transitions m g.current_node_index
            g.target_node_index = true → n + 1 ≤ m) ∧
    ((∀ m, reachIn g.store g.transitions m g.current_node_index g.target_node_index = false) →
      GOFSM_SearchNextStep g = none) := by
  have inv0 : SearchInv g.store g.transitions g.current_node_index g.target_node_index
      [g.target_node_index] 0 0 := by
    refine ⟨List.nodup_singleton _, ?_, ?_, ?_, Nat.zero_le _⟩
    · intro x
      rw [List.mem_singleton]
      constructor
      · rintro rfl
        exact ⟨fun h => hne h.symm, 0, le_rfl, reachIn_zero_iff.mpr rfl⟩
      · rintro ⟨hxc, j, hj, hr⟩
        obtain rfl := Nat.le_zero.mp hj
        exact reachIn_zero_iff.mp hr
    · intro x
      rw [List.drop_zero, List.mem_singleton]
      constructor
      · rintro rfl
        exact ⟨fun h => hne h.symm, reachIn_zero_iff.mpr rfl, fun j _ => Nat.zero_le j⟩
      · rintro ⟨hxc, hr, -⟩
        exact reachIn_zero_iff.mp hr
    · intro j hj
      obtain rfl := Nat.le_zero.mp hj
      simp only [reachIn, beq_eq_false_iff_ne, ne_eq]
      exact hne
  have hbud0 : ((g.transitions.map fun t => (g.store t).source_node_index).toFinset \
      [g.target_node_index].toFinset).card + 2 ≤ g.transitions.length + 2 := by
    have h1 := Finset.card_le_card
      (Finset.sdiff_subset (s := (g.transitions.map fun t =>
        (g.store t).source_node_index).toFinset) (t := [g.target_node_index].toFinset))
    have h2 := List.toFinset_card_le (g.transitions.map fun t =>
      (g.store t).source_node_index)
    rw [List.length_map] at h2
    omega
  obtain ⟨hsome, hnone⟩ :=
    searchLoop_main (g.transitions.length + 2) [g.target_node_index] 0 0 inv0 hbud0
  constructor
  · rintro ⟨m, hm⟩
    cases hres : GOFSM_SearchNextStep g with
    | none =>
      exfalso
      have hall := hnone hres m
      rw [hall] at hm
      exact Bool.false_ne_true hm
    | some t =>
      obtain ⟨h1, h2, h3, hn⟩ := hsome t hres
      exact ⟨t, rfl, h1, h2, h3, hn⟩
  · intro hunreach
    cases hres : GOFSM_SearchNextStep g with
    | none => rfl
    | some t =>
      exfalso
      obtain ⟨h1, h2, h3, n, hn1, hn2, hn3⟩ := hsome t hres
      rw [hunreach (n + 1)] at hn2
      exact Bool.false_ne_true hn2

/-- Witness for C3 on the chain scenario (0→1→2, current=0, target=2). -/
theorem searchNextStep_min_path_witness :
    exEngineChain.current_node_index ≠ exEngineChain.target_node_index ∧
    (((∃ m, reachIn exEngineChain.store exEngineChain.transitions m
          exEngineChain.current_node_index exEngineChain.target_node_index = true) →
      ∃ t, GOFSM_SearchNextStep exEngineChain = some t ∧ t ∈ exEngineChain.transitions ∧
        (exEngineChain.store t).state = TransitionState.Available ∧
        (exEngineChain.store t).source_node_index = exEngineChain.current_node_index ∧
        ∃ n, reachIn exEngineChain.store exEngineChain.transitions n
            ((exEngineChain.store t).destination_node_index)
            exEngineChain.target_node_index = true ∧
          reachIn exEngineChain.store exEngineChain.transitions (n + 1)
            exEngineChain.current_node_index exEngineChain.target_node_index = true ∧
          ∀ m, reachIn exEngineChain.store exEngineChain.transitions m
            exEngineChain.current_node_index exEngineChain.target_node_index = true →
            n + 1 ≤ m) ∧
    ((∀ m, reachIn exEngineChain.store exEngineChain.transitions m
        exEngineChain.current_node_index exEngineChain.target_node_index = false) →
      GOFSM_SearchNextStep exEngineChain = none)) :=
  ⟨by decide, searchNextStep_min_path exEngineChain (by decide)⟩

end GOFSM
